import Mathlib

/-!
Verification of the singly-linked list in
`data_structures/linkedlist.py` and `data_structures/node.py`.

A node reference is modelled by the inductive type `Chain`: either the
null reference or a `Node` object holding `data` and its `next`
reference.  The acyclic single-ownership invariant of the structure
makes this a faithful model of the reachable chain.  A `LinkedList`
object is identified with its `head` reference, so the state of a list
is a value of `Chain`.  Mutating operations are modelled as functions
from the pre-state to the post-state, paired with the error they raise
(if any); operations that cannot raise return the post-state directly.
-/

set_option autoImplicit false

namespace PyLinkedList

universe u

variable {α : Type u}

/-- A node reference: null, or a Node (from `node.py`) holding `data`
and the `next` reference. -/
inductive Chain (α : Type u) where
  | null : Chain α
  | node (data : α) (next : Chain α) : Chain α
  deriving DecidableEq

/-- The exceptions the Python code can raise: `IndexError` from
`nodes.pop(0)` on an empty list, and the two `Exception`s raised
explicitly by `add_after` and `remove_node`.  The value-not-found
exception message interpolates the target value, so the constructor
carries it. -/
inductive PyErr (α : Type u) where
  | indexError : PyErr α
  | emptyList : PyErr α
  | valueNotFound (target : α) : PyErr α
  deriving DecidableEq

/-- Traversal (`LinkedList.__iter__`): walk from the given reference,
yielding each node until the reference is null.  This collects the
yielded data values in link order. -/
def toValues : Chain α → List α
  | Chain.null => []
  | Chain.node d n => d :: toValues n

/-- The length of the list: the number of nodes reached before the
null terminator. -/
def chainLength (c : Chain α) : Nat := (toValues c).length

/-- Walk to the terminal node of the chain and set its `next` to a
fresh node holding `v` (the effect of `current_node.next = Node(v)` at
the cursor position); on the null reference the fresh node itself is
the result. -/
def appendNode : Chain α → α → Chain α
  | Chain.null, v => Chain.node v Chain.null
  | Chain.node d n, v => Chain.node d (appendNode n v)

/-- The body of `LinkedList.__init__` when `nodes` is not `None`:
`nodes.pop(0)` removes and returns the first element (raising
`IndexError` when `nodes` is empty), the popped value becomes the head
node, and the `for` loop appends one node per remaining element, in
order.  The result pairs the constructed head chain with the state of
the caller-supplied `nodes` list after the call (the pop removed its
first element; the loop only reads it). -/
def initFrom (nodes : List α) : Except (PyErr α) (Chain α × List α) :=
  match nodes with
  | [] => Except.error PyErr.indexError
  | x :: rest => Except.ok (rest.foldl appendNode (Chain.node x Chain.null), rest)

/-- Full `LinkedList.__init__`: the `nodes` parameter defaults to
`None`, in which case `head` stays null.  The second component is the
state of the caller-supplied argument after the call. -/
def initOpt : Option (List α) → Except (PyErr α) (Chain α × Option (List α))
  | Option.none => Except.ok (Chain.null, Option.none)
  | Option.some nodes =>
    match initFrom nodes with
    | Except.error e => Except.error e
    | Except.ok (c, rest) => Except.ok (c, Option.some rest)

/-- `LinkedList.add_first`: `node.next = self.head; self.head = node`. -/
def add_first (head : Chain α) (v : α) : Chain α := Chain.node v head

/-- `LinkedList.add_last`: when `head` is null the new node becomes the
head; otherwise the `for` loop runs the traversal to its last yielded
node (the terminal node) and sets its `next` to the new node. -/
def add_last (head : Chain α) (v : α) : Chain α :=
  match head with
  | Chain.null => Chain.node v Chain.null
  | Chain.node d n => Chain.node d (appendNode n v)

/-- The traversal loop of `LinkedList.add_after`: at each node compare
`node.data == target`; on the first match run
`new_node.next = node.next; node.next = new_node` and return.  `none`
means the loop exhausted the chain without a match (and hence without
mutating anything). -/
def spliceAfter [DecidableEq α] : Chain α → α → α → Option (Chain α)
  | Chain.null, _, _ => Option.none
  | Chain.node d n, t, v =>
    if d = t then Option.some (Chain.node d (Chain.node v n))
    else (spliceAfter n t v).map (Chain.node d)

/-- `LinkedList.add_after(target, new_node)`: raises the empty-list
exception when `head` is null; otherwise runs the traversal loop and
raises the value-not-found exception when no node matched.  Returns
the post-call head together with the raised exception, if any. -/
def add_after [DecidableEq α] (head : Chain α) (t v : α) :
    Chain α × Option (PyErr α) :=
  match head with
  | Chain.null => (head, Option.some PyErr.emptyList)
  | Chain.node _ _ =>
    match spliceAfter head t v with
    | Option.some c => (c, Option.none)
    | Option.none => (head, Option.some (PyErr.valueNotFound t))

/-- The traversal loop of `LinkedList.remove_node` restricted to the
nodes after the head: on the first node whose data matches, run
`previous_node.next = node.next` and return.  `none` means no match
(and no mutation).  The Python loop iterates from the head itself, but
its first iteration can never match because the head was compared and
ruled out before the loop. -/
def unlinkFirst [DecidableEq α] : Chain α → α → Option (Chain α)
  | Chain.null, _ => Option.none
  | Chain.node d n, t =>
    if d = t then Option.some n
    else (unlinkFirst n t).map (Chain.node d)

/-- `LinkedList.remove_node(target)`: raises the empty-list exception
when `head` is null; when the head matches, `self.head =
self.head.next`; otherwise runs the traversal loop with the previous
node tracked and raises the value-not-found exception when no node
matched.  Returns the post-call head together with the raised
exception, if any. -/
def remove_node [DecidableEq α] (head : Chain α) (t : α) :
    Chain α × Option (PyErr α) :=
  match head with
  | Chain.null => (head, Option.some PyErr.emptyList)
  | Chain.node d n =>
    if d = t then (n, Option.none)
    else
      match unlinkFirst n t with
      | Option.some n2 => (Chain.node d n2, Option.none)
      | Option.none => (head, Option.some (PyErr.valueNotFound t))

/-- The Python list `items` built by `LinkedList.__repr__`: the loop
appends each node data in link order, then `items.append(None)`. -/
def reprItems : Chain α → List (Option α)
  | Chain.null => [Option.none]
  | Chain.node d n => Option.some d :: reprItems n

/-- Python `repr` of one entry of `items` when the data are ints:
`None` renders as the literal `None`, an int as its decimal form. -/
def pyStrItem : Option Int → String
  | Option.none => "None"
  | Option.some n => toString n

/-- `LinkedList.__repr__` for int data: `str(items)` renders the
Python list as the bracketed comma-separated reprs of its entries, and
the surrounding join with the empty separator leaves that string
unchanged. -/
def listRepr (head : Chain Int) : String :=
  "[" ++ String.intercalate ", " ((reprItems head).map pyStrItem) ++ "]"

@[simp] theorem toValues_null : toValues (Chain.null : Chain α) = [] := rfl

@[simp] theorem toValues_node (d : α) (n : Chain α) :
    toValues (Chain.node d n) = d :: toValues n := rfl

@[simp] theorem toValues_appendNode (c : Chain α) (v : α) :
    toValues (appendNode c v) = toValues c ++ [v] := by
  induction c with
  | null => rfl
  | node d n ih => simp [appendNode, ih]

theorem toValues_foldl_appendNode (rest : List α) (c : Chain α) :
    toValues (rest.foldl appendNode c) = toValues c ++ rest := by
  induction rest generalizing c with
  | nil => simp
  | cons x xs ih => simp [List.foldl_cons, ih]

theorem spliceAfter_of_not_mem [DecidableEq α] (c : Chain α) (t v : α)
    (h : t ∉ toValues c) : spliceAfter c t v = Option.none := by
  induction c with
  | null => rfl
  | node d n ih =>
    simp only [toValues_node, List.mem_cons] at h
    push_neg at h
    simp [spliceAfter, if_neg (Ne.symm h.1), ih h.2]

theorem unlinkFirst_of_not_mem [DecidableEq α] (c : Chain α) (t : α)
    (h : t ∉ toValues c) : unlinkFirst c t = Option.none := by
  induction c with
  | null => rfl
  | node d n ih =>
    simp only [toValues_node, List.mem_cons] at h
    push_neg at h
    simp [unlinkFirst, if_neg (Ne.symm h.1), ih h.2]

theorem spliceAfter_first [DecidableEq α] (c : Chain α) (t v : α)
    (p q : List α) (hp : t ∉ p) (hc : toValues c = p ++ t :: q) :
    ∃ c2, spliceAfter c t v = Option.some c2 ∧
      toValues c2 = p ++ t :: v :: q := by
  induction c generalizing p with
  | null => simp at hc
  | node d n ih =>
    cases p with
    | nil =>
      simp only [toValues_node, List.nil_append, List.cons.injEq] at hc
      obtain ⟨rfl, rfl⟩ := hc
      exact ⟨Chain.node d (Chain.node v n), by simp [spliceAfter], by simp⟩
    | cons a p2 =>
      simp only [toValues_node, List.cons_append, List.cons.injEq] at hc
      obtain ⟨rfl, hn⟩ := hc
      simp only [List.mem_cons] at hp
      push_neg at hp
      obtain ⟨c2, h1, h2⟩ := ih p2 hp.2 hn
      exact ⟨Chain.node d c2,
        by simp [spliceAfter, if_neg (Ne.symm hp.1), h1],
        by simp [h2]⟩

theorem unlinkFirst_first [DecidableEq α] (c : Chain α) (t : α)
    (p q : List α) (hp : t ∉ p) (hc : toValues c = p ++ t :: q) :
    ∃ c2, unlinkFirst c t = Option.some c2 ∧ toValues c2 = p ++ q := by
  induction c generalizing p with
  | null => simp at hc
  | node d n ih =>
    cases p with
    | nil =>
      simp only [toValues_node, List.nil_append, List.cons.injEq] at hc
      obtain ⟨rfl, rfl⟩ := hc
      exact ⟨n, by simp [unlinkFirst], by simp⟩
    | cons a p2 =>
      simp only [toValues_node, List.cons_append, List.cons.injEq] at hc
      obtain ⟨rfl, hn⟩ := hc
      simp only [List.mem_cons] at hp
      push_neg at hp
      obtain ⟨c2, h1, h2⟩ := ih p2 hp.2 hn
      exact ⟨Chain.node d c2,
        by simp [unlinkFirst, if_neg (Ne.symm hp.1), h1],
        by simp [h2]⟩

theorem reprItems_eq (c : Chain α) :
    reprItems c = (toValues c).map Option.some ++ [Option.none] := by
  induction c with
  | null => rfl
  | node d n ih => simp [reprItems, ih]

theorem pyStrItem_some :
    pyStrItem ∘ Option.some = fun n : Int => toString n :=
  funext fun _ => rfl

/-- C1: for every non-empty input sequence `S`, constructing a
`LinkedList` from `S` succeeds and traversing the resulting list
yields exactly the values of `S`, in the same order. -/
theorem claim_C1 (s : List α) (hs : s ≠ []) :
    ∃ c rest, initFrom s = Except.ok (c, rest) ∧ toValues c = s := by
  cases s with
  | nil => exact absurd rfl hs
  | cons x xs =>
    exact ⟨_, xs, rfl, by simp [toValues_foldl_appendNode]⟩

theorem claim_C1_witness :
    (([23, 35, 10, 50] : List Int) ≠ []) ∧
      ∃ c rest, initFrom ([23, 35, 10, 50] : List Int) = Except.ok (c, rest) ∧
        toValues c = [23, 35, 10, 50] :=
  ⟨by decide, claim_C1 [23, 35, 10, 50] (by decide)⟩

/-- C2, counterexample to the claim as stated: constructing a
`LinkedList` from the empty sequence `[]` does not succeed; the
`nodes.pop(0)` call raises `IndexError`. -/
theorem claim_C2_counterexample :
    initFrom ([] : List Int) = Except.error PyErr.indexError ∧
      ¬ ∃ p, initFrom ([] : List Int) = Except.ok p := by
  refine ⟨rfl, ?_⟩
  rintro ⟨p, hp⟩
  simp [initFrom] at hp

/-- C2, amended: constructing a `LinkedList` with no input sequence
(the default `None` argument) succeeds and yields an empty list (head
is null, traversal yields nothing), but constructing from an empty
list raises `IndexError` from `nodes.pop(0)`. -/
theorem claim_C2 :
    initOpt (Option.none : Option (List α)) =
        Except.ok (Chain.null, Option.none) ∧
      initFrom ([] : List α) = Except.error PyErr.indexError ∧
      toValues (Chain.null : Chain α) = [] :=
  ⟨rfl, rfl, rfl⟩

/-- C3: after `add_first(n)` the traversal yields the value of `n`
first, followed by the previous traversal sequence unchanged, and the
length increases by 1. -/
theorem claim_C3 (c : Chain α) (v : α) :
    toValues (add_first c v) = v :: toValues c ∧
      chainLength (add_first c v) = chainLength c + 1 :=
  ⟨rfl, by simp [chainLength, add_first]⟩

/-- C4: `add_last(n)` always succeeds; on a non-empty list the value
of `n` becomes the final element with the prior elements unchanged in
order, and on an empty list `n` becomes the sole element (the head). -/
theorem claim_C4 (c : Chain α) (v : α) :
    toValues (add_last c v) = toValues c ++ [v] ∧
      add_last (Chain.null : Chain α) v = Chain.node v Chain.null := by
  refine ⟨?_, rfl⟩
  cases c with
  | null => rfl
  | node d n => simp [add_last]

/-- C5: on a list whose traversal is `p ++ t :: q` with no occurrence
of `t` in `p` (so the displayed `t` is the first occurrence),
`add_after t v` raises nothing and the new traversal is
`p ++ t :: v :: q`: the value is spliced in directly after the first
occurrence of `t`, later duplicates being ignored. -/
theorem claim_C5 [DecidableEq α] (c : Chain α) (t v : α) (p q : List α)
    (hp : t ∉ p) (hc : toValues c = p ++ t :: q) :
    ∃ c2, add_after c t v = (c2, Option.none) ∧
      toValues c2 = p ++ t :: v :: q := by
  obtain ⟨c2, h1, h2⟩ := spliceAfter_first c t v p q hp hc
  cases c with
  | null => simp at hc
  | node d n => exact ⟨c2, by simp [add_after, h1], h2⟩

theorem claim_C5_witness :
    ((2 : Int) ∉ ([1] : List Int)) ∧
      toValues (Chain.node (1 : Int) (Chain.node 2 (Chain.node 2 Chain.null))) =
        [1] ++ 2 :: [2] ∧
      ∃ c2,
        add_after (Chain.node (1 : Int) (Chain.node 2 (Chain.node 2 Chain.null)))
            2 3 = (c2, Option.none) ∧
          toValues c2 = [1] ++ 2 :: 3 :: [2] :=
  ⟨by decide, by decide, claim_C5 _ 2 3 [1] [2] (by decide) (by decide)⟩

/-- C6: on a list whose traversal is `p ++ t :: q` with no occurrence
of `t` in `p`, `remove_node t` raises nothing, removes exactly that
first occurrence (the head included, when `p = []`), so the new
traversal is `p ++ q` and the length shrinks by one. -/
theorem claim_C6 [DecidableEq α] (c : Chain α) (t : α) (p q : List α)
    (hp : t ∉ p) (hc : toValues c = p ++ t :: q) :
    ∃ c2, remove_node c t = (c2, Option.none) ∧ toValues c2 = p ++ q ∧
      chainLength c2 + 1 = chainLength c := by
  cases c with
  | null => simp at hc
  | node d n =>
    cases p with
    | nil =>
      simp only [toValues_node, List.nil_append, List.cons.injEq] at hc
      obtain ⟨rfl, rfl⟩ := hc
      exact ⟨n, by simp [remove_node], by simp, by simp [chainLength]⟩
    | cons a p2 =>
      simp only [toValues_node, List.cons_append, List.cons.injEq] at hc
      obtain ⟨rfl, hn⟩ := hc
      simp only [List.mem_cons] at hp
      push_neg at hp
      obtain ⟨c2, h1, h2⟩ := unlinkFirst_first n t p2 q hp.2 hn
      refine ⟨Chain.node d c2, ?_, by simp [h2], ?_⟩
      · simp [remove_node, if_neg (Ne.symm hp.1), h1]
      · simp only [chainLength, toValues_node, h2, hn, List.length_cons,
          List.length_append]
        omega

theorem claim_C6_witness :
    ((2 : Int) ∉ ([1] : List Int)) ∧
      toValues (Chain.node (1 : Int) (Chain.node 2 Chain.null)) =
        [1] ++ 2 :: [] ∧
      ∃ c2, remove_node (Chain.node (1 : Int) (Chain.node 2 Chain.null)) 2 =
          (c2, Option.none) ∧
        toValues c2 = [1] ++ [] ∧
        chainLength c2 + 1 =
          chainLength (Chain.node (1 : Int) (Chain.node 2 Chain.null)) :=
  ⟨by decide, by decide, claim_C6 _ 2 [1] [] (by decide) (by decide)⟩

/-- C7: `add_after` and `remove_node` raise the empty-list exception
exactly when the head is null; on an empty list the state is left as
is and no other outcome occurs, and on a non-empty list the empty-list
exception is never raised. -/
theorem claim_C7 [DecidableEq α] (c : Chain α) (t v : α) :
    (c = Chain.null →
        add_after c t v = (c, Option.some PyErr.emptyList) ∧
          remove_node c t = (c, Option.some PyErr.emptyList)) ∧
      (c ≠ Chain.null →
        (add_after c t v).2 ≠ Option.some PyErr.emptyList ∧
          (remove_node c t).2 ≠ Option.some PyErr.emptyList) := by
  constructor
  · rintro rfl
    exact ⟨rfl, rfl⟩
  · intro hne
    cases c with
    | null => exact absurd rfl hne
    | node d n =>
      constructor
      · rcases h : spliceAfter (Chain.node d n) t v with _ | c2 <;>
          simp [add_after, h]
      · by_cases hd : d = t
        · simp [remove_node, hd]
        · rcases h : unlinkFirst n t with _ | n2 <;>
            simp [remove_node, hd, h]

theorem claim_C7_witness :
    (add_after (Chain.null : Chain Int) 0 1 =
        (Chain.null, Option.some PyErr.emptyList) ∧
      remove_node (Chain.null : Chain Int) 0 =
        (Chain.null, Option.some PyErr.emptyList)) ∧
      ((add_after (Chain.node (5 : Int) Chain.null) 0 1).2 ≠
          Option.some PyErr.emptyList ∧
        (remove_node (Chain.node (5 : Int) Chain.null) 0).2 ≠
          Option.some PyErr.emptyList) :=
  ⟨(claim_C7 Chain.null 0 1).1 rfl,
    (claim_C7 (Chain.node 5 Chain.null) 0 1).2 (by decide)⟩

/-- C8: on a non-empty list containing no occurrence of `t`,
`add_after t v` and `remove_node t` each raise the value-not-found
exception carrying the target `t`, and the head (hence the traversal
sequence) is exactly what it was before the failed call. -/
theorem claim_C8 [DecidableEq α] (c : Chain α) (t v : α)
    (hne : c ≠ Chain.null) (habs : t ∉ toValues c) :
    add_after c t v = (c, Option.some (PyErr.valueNotFound t)) ∧
      remove_node c t = (c, Option.some (PyErr.valueNotFound t)) := by
  cases c with
  | null => exact absurd rfl hne
  | node d n =>
    have hs : spliceAfter (Chain.node d n) t v = Option.none :=
      spliceAfter_of_not_mem _ _ _ habs
    simp only [toValues_node, List.mem_cons] at habs
    push_neg at habs
    have hu : unlinkFirst n t = Option.none :=
      unlinkFirst_of_not_mem _ _ habs.2
    constructor
    · simp [add_after, hs]
    · simp [remove_node, if_neg (Ne.symm habs.1), hu]

theorem claim_C8_witness :
    ((Chain.node (1 : Int) Chain.null) ≠ Chain.null) ∧
      ((2 : Int) ∉ toValues (Chain.node (1 : Int) Chain.null)) ∧
      add_after (Chain.node (1 : Int) Chain.null) 2 3 =
        (Chain.node 1 Chain.null, Option.some (PyErr.valueNotFound 2)) ∧
      remove_node (Chain.node (1 : Int) Chain.null) 2 =
        (Chain.node 1 Chain.null, Option.some (PyErr.valueNotFound 2)) :=
  ⟨by decide, by decide, claim_C8 _ 2 3 (by decide) (by decide)⟩

/-- C9: the textual rendering of a list is the bracketed,
comma-separated sequence of each element's own textual form followed
by the terminal marker `None`; in particular a list freshly
constructed from `[23, 35, 10, 50]` renders exactly as the string
`[23, 35, 10, 50, None]`. -/
theorem claim_C9 :
    (∀ c : Chain Int,
        listRepr c =
          "[" ++
            String.intercalate ", " ((toValues c).map toString ++ ["None"]) ++
            "]") ∧
      ∃ c rest, initFrom ([23, 35, 10, 50] : List Int) = Except.ok (c, rest) ∧
        listRepr c = "[23, 35, 10, 50, None]" := by
  constructor
  · intro c
    simp [listRepr, reprItems_eq, List.map_append, List.map_map,
      pyStrItem_some, pyStrItem]
  · exact ⟨_, _, rfl, by decide⟩

/-- C10: constructing a `LinkedList` from a non-empty caller-supplied
sequence pops the first element off the caller's sequence (the
`nodes.pop(0)` side effect) and leaves the remaining elements of the
caller's sequence in place, while the constructed chain still
traverses to the full original sequence. -/
theorem claim_C10 (x : α) (rest : List α) :
    ∃ c, initFrom (x :: rest) = Except.ok (c, rest) ∧
      toValues c = x :: rest :=
  ⟨_, rfl, by simp [toValues_foldl_appendNode]⟩

end PyLinkedList
